import Mathlib

/-!
Verification of the Guarded Generation Pipeline of `app.py`.

The program is a linear pipeline around a mocked text-generation call:
an authorization check (`authorization_check.strip() != AUTH_PHRASE`),
an input keyword filter over `PROMPT_DENY_LIST`, the mock backend
`mock_generate_content`, and a line-granular output filter over
`OUTPUT_DENY_LIST`.  Strings are modelled as lists of characters;
Python's `str.lower` is modelled by mapping `Char.toLower` (both only
case-fold ASCII letters), `in` by substring containment, `strip()` by
dropping whitespace from both ends, `split('\n')` and `'\n'.join` by
`splitLines` / `joinLines` below.
-/

namespace GuardedPipeline

/-- A Python string, modelled as its list of characters. -/
abbrev Str := List Char

/-- Coerce a Lean string literal to the model type. -/
def str (s : String) : Str := s.data

/-- Python `s.lower()` (ASCII case folding, as `Char.toLower`). -/
def toLowerStr (s : Str) : Str := s.map Char.toLower

/-- Python `w in s`: `w` occurs as a contiguous substring of `s`. -/
def containsSub : Str → Str → Bool
  | [], w => w.isEmpty
  | c :: t, w => w.isPrefixOf (c :: t) || containsSub t w

/-- The whitespace characters removed by Python `str.strip()` (ASCII part). -/
def isPySpace (c : Char) : Bool :=
  c = ' ' || c = '\t' || c = '\n' || c = '\r' || c = '\x0b' || c = '\x0c'

/-- Python `s.strip()`: drop whitespace from both ends. -/
def stripStr (s : Str) : Str :=
  ((s.dropWhile isPySpace).reverse.dropWhile isPySpace).reverse

/-- `app.py` line 19: keywords not allowed in the user's input. -/
def PROMPT_DENY_LIST : List Str :=
  [str "malicious", str "exploit", str "unauthorized", str "bypass", str "attack",
   str "shutdown", str "delete all", str "wipe", str "DDoS", str "phishing"]

/-- `app.py` line 25: the required authorization phrase. -/
def AUTH_PHRASE : Str := str "I am an authorized admin"

/-- `app.py` line 28: keywords filtered out of the model's output. -/
def OUTPUT_DENY_LIST : List Str :=
  [str "sudo rm -rf /", str "reboot", str "shutdown now", str "unmount", str "kill -9"]

/-- Canned response of the mock backend for prompts mentioning a firewall. -/
def firewallPolicyText : Str :=
  str "Generated policy for firewall: \n- Block all incoming traffic on port 22 (SSH) from external networks. \n- Allow web traffic on ports 80 and 443. \n- Log all dropped packets to the security information and event management (SIEM) system. \n- Please note: This is a basic policy. Always review and customize for your specific needs."

/-- Canned response of the mock backend for prompts mentioning a VPN. -/
def vpnPolicyText : Str :=
  str "Generated policy for VPN access: \n- Enforce two-factor authentication for all VPN users. \n- Require a minimum password length of 16 characters. \n- Implement an idle timeout of 30 minutes. \n- Ensure all user traffic is encrypted using AES-256. \n- All VPN access should be logged and monitored for suspicious activity."

/-- Canned generic response of the mock backend. -/
def genericPolicyText : Str :=
  str "Generated generic security policy: \n- Implement strong password policies. \n- Use endpoint protection software. \n- Regularly patch all systems. \n- Conduct routine security audits."

/-- `app.py` `mock_generate_content`: the deterministic stub backend.
The returned JSON wrapper is fixed, so only the extracted
`candidates[0].content.parts[0].text` field is modelled. -/
def mock_generate_content (prompt : Str) : Str :=
  if containsSub (toLowerStr prompt) (str "firewall") then firewallPolicyText
  else if containsSub (toLowerStr prompt) (str "VPN") then vpnPolicyText
  else genericPolicyText

/-- The input-filter loop of `app.py` lines 106-111: the first word of
`denyList`, in declaration order, contained in the lower-cased prompt. -/
def scanPrompt (prompt : Str) (denyList : List Str) : Option Str :=
  denyList.find? fun w => containsSub (toLowerStr prompt) w

/-- `app.py` line 106: the `is_safe_prompt` flag after the loop ran. -/
def is_safe_prompt (prompt : Str) (denyList : List Str) : Bool :=
  !(denyList.any fun w => containsSub (toLowerStr prompt) w)

/-- Python `s.split('\n')`: always returns at least one (possibly empty) line. -/
def splitLines : Str → List Str
  | [] => [[]]
  | c :: t =>
    if c = '\n' then [] :: splitLines t
    else
      match splitLines t with
      | [] => [[c]]
      | l :: ls => (c :: l) :: ls

/-- Python `'\n'.join(lines)`. -/
def joinLines : List Str → Str
  | [] => []
  | [l] => l
  | l :: l' :: ls => l ++ '\n' :: joinLines (l' :: ls)

/-- `app.py` lines 132-133: a line is dropped when some deny-listed word
occurs in the lower-cased line. -/
def lineBad (denyList : List Str) (line : Str) : Bool :=
  denyList.any fun w => containsSub (toLowerStr line) w

/-- Outcome of the output filter: the kept lines (`final_output_parts` in
`app.py`) and the removed lines, each in original order. -/
structure FilterResult where
  kept : List Str
  redacted : List Str
deriving DecidableEq

/-- The output-filter loop of `app.py` lines 128-140 over an explicit list
of lines. -/
def filterLines (denyList : List Str) : List Str → FilterResult
  | [] => ⟨[], []⟩
  | l :: ls =>
    let r := filterLines denyList ls
    if lineBad denyList l then ⟨r.kept, l :: r.redacted⟩
    else ⟨l :: r.kept, r.redacted⟩

/-- `app.py` lines 128-140: split the generated text into lines and filter. -/
def outputFilter (text : Str) (denyList : List Str) : FilterResult :=
  filterLines denyList (splitLines text)

/-- `app.py` line 142: `final_output = '\n'.join(final_output_parts)`. -/
def final_output (text : Str) (denyList : List Str) : Str :=
  joinLines (outputFilter text denyList).kept

/-- Structured pipeline outcome (spec's `PipelineResult`). -/
inductive PipelineResult where
  | rejectedAuth : PipelineResult
  | rejectedInput : Str → PipelineResult
  | accepted : Str → List Str → PipelineResult
deriving DecidableEq

/-- The whole guarded pipeline of `app.py` lines 95-148, parametrised by
the backend.  The second component counts backend invocations. -/
def runPipeline (backend : Str → Str) (prompt auth : Str) : PipelineResult × Nat :=
  if stripStr auth ≠ AUTH_PHRASE then (.rejectedAuth, 0)
  else
    match scanPrompt prompt PROMPT_DENY_LIST with
    | some w => (.rejectedInput w, 0)
    | none =>
      let raw := backend prompt
      let r := outputFilter raw OUTPUT_DENY_LIST
      (.accepted (joinLines r.kept) r.redacted, 1)

/-- The pipeline as shipped, with the mock backend. -/
def pipeline (prompt auth : Str) : PipelineResult :=
  (runPipeline mock_generate_content prompt auth).1

/-- `w` occurs verbatim as a contiguous substring of `s`. -/
def SubstrOf (w s : Str) : Prop := ∃ pre post, s = pre ++ w ++ post

/-- `w` occurs in `s` up to ASCII case (case-insensitive substring). -/
def CiSubstrOf (w s : Str) : Prop := SubstrOf (toLowerStr w) (toLowerStr s)

/-- States of the pipeline orchestrator (spec section 4.5). -/
inductive PState where
  | authorizing : Str → Str → PState
  | inputFiltering : Str → PState
  | generating : Str → PState
  | outputFiltering : Str → PState
  | done : PipelineResult → PState

/-- Transition relation of the pipeline orchestrator, mirroring the
control flow of `app.py` lines 95-148 with the mock backend. -/
inductive Step : PState → PState → Prop where
  | authFail {p a : Str} : stripStr a ≠ AUTH_PHRASE →
      Step (.authorizing p a) (.done .rejectedAuth)
  | authPass {p a : Str} : stripStr a = AUTH_PHRASE →
      Step (.authorizing p a) (.inputFiltering p)
  | inputDeny {p w : Str} : scanPrompt p PROMPT_DENY_LIST = some w →
      Step (.inputFiltering p) (.done (.rejectedInput w))
  | inputPass {p : Str} : scanPrompt p PROMPT_DENY_LIST = none →
      Step (.inputFiltering p) (.generating p)
  | generate {p : Str} : Step (.generating p) (.outputFiltering (mock_generate_content p))
  | outFilter {raw : Str} : Step (.outputFiltering raw)
      (.done (.accepted (final_output raw OUTPUT_DENY_LIST)
        (outputFilter raw OUTPUT_DENY_LIST).redacted))

/-- Reachability in zero or more orchestrator steps. -/
def Reaches : PState → PState → Prop := Relation.ReflTransGen Step

/-! ### Supporting lemmas about characters and substrings -/

theorem uint32_le_iff_toNat_le (a b : UInt32) : a ≤ b ↔ a.toNat ≤ b.toNat := by
  rw [UInt32.le_def, BitVec.le_def]; rfl

theorem char_toNat_ofNat_valid (n : Nat) (h : n.isValidChar) : (Char.ofNat n).toNat = n := by
  rw [Char.ofNat, dif_pos h]
  rfl

/-- ASCII case folding never produces an upper-case letter. -/
theorem toLower_not_upper (c : Char) : (Char.toLower c).isUpper = false := by
  rw [Char.toLower]
  split
  case isTrue h =>
    have hv : (Char.toNat c + 32).isValidChar := Or.inl (by omega)
    rw [Char.isUpper]
    have hn : (Char.ofNat (Char.toNat c + 32)).toNat = Char.toNat c + 32 :=
      char_toNat_ofNat_valid _ hv
    simp only [Bool.and_eq_false_iff, decide_eq_false_iff_not, ge_iff_le]
    right
    rw [uint32_le_iff_toNat_le]
    have h90 : ((90 : UInt32)).toNat = 90 := rfl
    rw [h90]
    have hval : (Char.ofNat (Char.toNat c + 32)).val.toNat
        = (Char.ofNat (Char.toNat c + 32)).toNat := rfl
    rw [hval, hn]
    omega
  case isFalse h =>
    rw [Char.isUpper]
    simp only [Bool.and_eq_false_iff, decide_eq_false_iff_not, ge_iff_le]
    rw [uint32_le_iff_toNat_le, uint32_le_iff_toNat_le]
    have h65 : ((65 : UInt32)).toNat = 65 := rfl
    have h90 : ((90 : UInt32)).toNat = 90 := rfl
    rw [h65, h90]
    have hval : c.val.toNat = c.toNat := rfl
    rw [hval]
    omega

theorem isPrefixOf_append_exists : ∀ {w s : Str}, w.isPrefixOf s = true → ∃ t, s = w ++ t
  | [], s, _ => ⟨s, rfl⟩
  | a :: w, [], h => by simp [List.isPrefixOf] at h
  | a :: w, b :: s, h => by
    rw [List.isPrefixOf_cons₂, Bool.and_eq_true, beq_iff_eq] at h
    obtain ⟨t, ht⟩ := isPrefixOf_append_exists h.2
    exact ⟨t, by rw [h.1, List.cons_append, ht]⟩

theorem isPrefixOf_self_append : ∀ (w t : Str), w.isPrefixOf (w ++ t) = true
  | [], _ => List.isPrefixOf_nil_left
  | a :: w, t => by
    rw [List.cons_append, List.isPrefixOf_cons₂, Bool.and_eq_true, beq_iff_eq]
    exact ⟨rfl, isPrefixOf_self_append w t⟩

theorem containsSub_eq_true_of_substr :
    ∀ {s : Str} (w pre post : Str), s = pre ++ w ++ post → containsSub s w = true := by
  intro s w pre
  induction pre generalizing s with
  | nil =>
    intro post h
    simp only [List.nil_append] at h
    subst h
    match w with
    | [] =>
      match post with
      | [] => rfl
      | c :: t => simp [containsSub, List.isPrefixOf]
    | a :: w' =>
      rw [List.cons_append]
      simp only [containsSub, Bool.or_eq_true]
      left
      rw [← List.cons_append]
      exact isPrefixOf_self_append (a :: w') post
  | cons c pre ih =>
    intro post h
    subst h
    simp only [containsSub, Bool.or_eq_true]
    right
    exact ih post rfl

theorem containsSub_iff {s w : Str} : containsSub s w = true ↔ SubstrOf w s := by
  constructor
  · intro h
    induction s with
    | nil =>
      simp only [containsSub, List.isEmpty_iff] at h
      exact ⟨[], [], by simp [h]⟩
    | cons c t ih =>
      simp only [containsSub, Bool.or_eq_true] at h
      rcases h with h | h
      · obtain ⟨post, hpost⟩ := isPrefixOf_append_exists h
        exact ⟨[], post, by simp [hpost]⟩
      · obtain ⟨pre, post, hp⟩ := ih h
        exact ⟨c :: pre, post, by simp [hp]⟩
  · rintro ⟨pre, post, h⟩
    exact containsSub_eq_true_of_substr w pre post h

theorem containsSub_mem {s w : Str} (h : containsSub s w = true) : ∀ c ∈ w, c ∈ s := by
  obtain ⟨pre, post, hp⟩ := containsSub_iff.mp h
  intro c hc
  subst hp
  simp [hc]

/-- A keyword containing an upper-case letter never occurs in a
lower-cased string. -/
theorem containsSub_toLower_of_upper {p w : Str} (hw : ∃ c ∈ w, c.isUpper = true) :
    containsSub (toLowerStr p) w = false := by
  obtain ⟨c, hc, hup⟩ := hw
  by_contra h
  rw [Bool.not_eq_false] at h
  have hmem : c ∈ toLowerStr p := containsSub_mem h c hc
  obtain ⟨d, _, hd⟩ := List.mem_map.mp hmem
  rw [← hd, toLower_not_upper] at hup
  exact Bool.false_ne_true hup

/-! ### Supporting lemmas about line splitting and joining -/

theorem splitLines_ne_nil : ∀ s : Str, splitLines s ≠ []
  | [] => by simp [splitLines]
  | c :: t => by
    simp only [splitLines]
    split
    · simp
    · split <;> simp

theorem splitLines_no_newline : ∀ (s : Str), ∀ l ∈ splitLines s, '\n' ∉ l := by
  intro s
  induction s with
  | nil => intro l hl; simp [splitLines] at hl; simp [hl]
  | cons c t ih =>
    intro l hl
    by_cases hc : c = '\n'
    · rw [splitLines, if_pos hc] at hl
      rcases List.mem_cons.mp hl with rfl | hl'
      · simp
      · exact ih l hl'
    · rw [splitLines, if_neg hc] at hl
      cases hsplit : splitLines t with
      | nil => exact absurd hsplit (splitLines_ne_nil t)
      | cons l' ls =>
        rw [hsplit] at hl
        rcases List.mem_cons.mp hl with rfl | hl'
        · intro hmem
          rcases List.mem_cons.mp hmem with heq | hmem'
          · exact hc heq.symm
          · exact ih l' (hsplit ▸ List.mem_cons_self l' ls) hmem'
        · exact ih l (hsplit ▸ List.mem_cons_of_mem l' hl')

theorem joinLines_splitLines : ∀ s : Str, joinLines (splitLines s) = s := by
  intro s
  induction s with
  | nil => rfl
  | cons c t ih =>
    by_cases hc : c = '\n'
    · subst hc
      rw [splitLines, if_pos rfl]
      cases hsplit : splitLines t with
      | nil => exact absurd hsplit (splitLines_ne_nil t)
      | cons l ls =>
        rw [hsplit] at ih
        show joinLines ([] :: l :: ls) = '\n' :: t
        rw [joinLines, List.nil_append, ih]
    · rw [splitLines, if_neg hc]
      cases hsplit : splitLines t with
      | nil => exact absurd hsplit (splitLines_ne_nil t)
      | cons l ls =>
        rw [hsplit] at ih
        cases ls with
        | nil => rw [joinLines] at ih ⊢; rw [ih]
        | cons l' ls' =>
          rw [joinLines] at ih ⊢
          rw [List.cons_append, ih]

theorem splitLines_single {l : Str} (h : '\n' ∉ l) : splitLines l = [l] := by
  induction l with
  | nil => rfl
  | cons c t ih =>
    have hc : c ≠ '\n' := fun e => h (by simp [e])
    have ht : '\n' ∉ t := fun m => h (List.mem_cons_of_mem _ m)
    rw [splitLines, if_neg (fun e => hc e), ih ht]

theorem splitLines_append_newline {l : Str} (rest : Str) (h : '\n' ∉ l) :
    splitLines (l ++ '\n' :: rest) = l :: splitLines rest := by
  induction l with
  | nil => rw [List.nil_append, splitLines, if_pos rfl]
  | cons c t ih =>
    have hc : c ≠ '\n' := fun e => h (by simp [e])
    have ht : '\n' ∉ t := fun m => h (List.mem_cons_of_mem _ m)
    rw [List.cons_append, splitLines, if_neg (fun e => hc e), ih ht]

theorem splitLines_joinLines : ∀ (ls : List Str), ls ≠ [] → (∀ l ∈ ls, '\n' ∉ l) →
    splitLines (joinLines ls) = ls
  | [], h, _ => absurd rfl h
  | [l], _, hl => by
    rw [joinLines]
    exact splitLines_single (hl l (by simp))
  | l :: l' :: ls, _, hl => by
    rw [joinLines, splitLines_append_newline _ (hl l (by simp))]
    rw [splitLines_joinLines (l' :: ls) (by simp)
      (fun x hx => hl x (List.mem_cons_of_mem _ hx))]

/-! ### Supporting lemmas about the output filter -/

theorem filterLines_kept_sublist (dl : List Str) :
    ∀ ls : List Str, (filterLines dl ls).kept.Sublist ls
  | [] => List.nil_sublist []
  | l :: ls => by
    rw [filterLines]
    split
    · exact (filterLines_kept_sublist dl ls).cons l
    · exact (filterLines_kept_sublist dl ls).cons₂ l

theorem filterLines_kept_good (dl : List Str) :
    ∀ ls : List Str, ∀ l ∈ (filterLines dl ls).kept, lineBad dl l = false
  | [] => by simp [filterLines]
  | l :: ls => by
    rw [filterLines]
    split
    · exact filterLines_kept_good dl ls
    · intro x hx
      rcases List.mem_cons.mp hx with rfl | hx'
      · simpa using ‹¬lineBad dl x = true›
      · exact filterLines_kept_good dl ls x hx'

theorem filterLines_redacted_bad (dl : List Str) :
    ∀ ls : List Str, ∀ l ∈ (filterLines dl ls).redacted, lineBad dl l = true
  | [] => by simp [filterLines]
  | l :: ls => by
    rw [filterLines]
    split
    · intro x hx
      rcases List.mem_cons.mp hx with rfl | hx'
      · assumption
      · exact filterLines_redacted_bad dl ls x hx'
    · exact filterLines_redacted_bad dl ls

theorem filterLines_all_good (dl : List Str) :
    ∀ ls : List Str, (∀ l ∈ ls, lineBad dl l = false) → filterLines dl ls = ⟨ls, []⟩
  | [], _ => rfl
  | l :: ls, h => by
    rw [filterLines, if_neg (by simp [h l (List.mem_cons_self l ls)]),
      filterLines_all_good dl ls (fun x hx => h x (List.mem_cons_of_mem _ hx))]

/-! ### Supporting lemmas about the input filter -/

theorem find?_first {α : Type} (p : α → Bool) :
    ∀ (l : List α), (∃ a ∈ l, p a = true) →
      ∃ i : Fin l.length, l.find? p = some (l.get i) ∧ p (l.get i) = true ∧
        ∀ j : Fin l.length, j < i → p (l.get j) = false
  | [], h => by simp at h
  | a :: t, h => by
    by_cases hpa : p a = true
    · refine ⟨⟨0, by simp⟩, ?_, hpa, ?_⟩
      · simp [List.find?_cons_of_pos _ hpa]
      · intro j hj
        exact absurd hj (by simp [Fin.lt_def])
    · have hpa' : p a = false := by simpa using hpa
      have ht : ∃ b ∈ t, p b = true := by
        rcases h with ⟨b, hb, hpb⟩
        rcases List.mem_cons.mp hb with rfl | hb'
        · exact absurd hpb hpa
        · exact ⟨b, hb', hpb⟩
      obtain ⟨i, hfind, hpi, hfirst⟩ := find?_first p t ht
      refine ⟨i.succ, ?_, ?_, ?_⟩
      · rw [List.find?_cons_of_neg _ (by simp [hpa']), List.get_cons_succ']
        exact hfind
      · rw [List.get_cons_succ']
        exact hpi
      · intro j hj
        induction j using Fin.cases with
        | zero => exact hpa'
        | succ j' =>
          rw [List.get_cons_succ']
          exact hfirst j' (by simpa [Fin.succ_lt_succ_iff] using hj)

theorem scanPrompt_none_iff (p : Str) (dl : List Str) :
    scanPrompt p dl = none ↔ is_safe_prompt p dl = true := by
  rw [scanPrompt, is_safe_prompt, List.find?_eq_none, Bool.not_eq_true', List.any_eq_false]

theorem scanPrompt_some_match {p w : Str} {dl : List Str}
    (h : scanPrompt p dl = some w) : containsSub (toLowerStr p) w = true :=
  List.find?_some h

theorem runPipeline_rejectedInput {backend : Str → Str} {prompt auth w : Str}
    (h : (runPipeline backend prompt auth).1 = .rejectedInput w) :
    scanPrompt prompt PROMPT_DENY_LIST = some w := by
  by_cases hauth : stripStr auth = AUTH_PHRASE
  · rw [runPipeline, if_neg (by simp [hauth])] at h
    cases hscan : scanPrompt prompt PROMPT_DENY_LIST with
    | some w' => rw [hscan] at h; cases h; rfl
    | none => rw [hscan] at h; cases h
  · rw [runPipeline, if_pos (by simp [hauth])] at h
    cases h

/-! ### Supporting lemmas about the orchestrator state machine -/

theorem step_deterministic {s t₁ t₂ : PState} (h₁ : Step s t₁) (h₂ : Step s t₂) : t₁ = t₂ := by
  cases h₁ <;> cases h₂ <;> simp_all

theorem done_no_step {r : PipelineResult} {s : PState} (h : Step (.done r) s) : False := by
  cases h

theorem reaches_done_inj {s : PState} {r₁ r₂ : PipelineResult}
    (h₁ : Reaches s (.done r₁)) (h₂ : Reaches s (.done r₂)) : r₁ = r₂ := by
  revert h₂
  induction h₁ using Relation.ReflTransGen.head_induction_on with
  | refl =>
    intro h₂
    rcases Relation.ReflTransGen.cases_head h₂ with heq | ⟨c, hstep, _⟩
    · exact PState.done.inj heq
    · exact (done_no_step hstep).elim
  | head hstep h₁' ih =>
    intro h₂
    rcases Relation.ReflTransGen.cases_head h₂ with heq | ⟨c', hstep', h₂'⟩
    · subst heq
      exact (done_no_step hstep).elim
    · have hc : _ = c' := step_deterministic hstep hstep'
      subst hc
      exact ih h₂'

theorem pipeline_reaches (p a : Str) :
    Reaches (.authorizing p a) (.done (pipeline p a)) := by
  by_cases hauth : stripStr a = AUTH_PHRASE
  · cases hscan : scanPrompt p PROMPT_DENY_LIST with
    | some w =>
      have heq : pipeline p a = .rejectedInput w := by
        simp [pipeline, runPipeline, hauth, hscan]
      rw [heq]
      exact .head (.authPass hauth) (.single (.inputDeny hscan))
    | none =>
      have heq : pipeline p a = .accepted
          (final_output (mock_generate_content p) OUTPUT_DENY_LIST)
          (outputFilter (mock_generate_content p) OUTPUT_DENY_LIST).redacted := by
        simp [pipeline, runPipeline, hauth, hscan, final_output]
      rw [heq]
      exact .head (.authPass hauth)
        (.head (.inputPass hscan) (.head .generate (.single .outFilter)))
  · have heq : pipeline p a = .rejectedAuth := by
      simp [pipeline, runPipeline, hauth]
    rw [heq]
    exact .single (.authFail hauth)

/-! ### Claims -/

/-- C1: the backend is invoked only if the authorization check passed and
the input filter found no denied keyword; a prompt failing authorization
yields `rejectedAuth` with zero backend calls, and (authorization having
passed) a prompt with a denied keyword yields `rejectedInput` with zero
backend calls. -/
theorem C1_backend_guarded (backend : Str → Str) (prompt auth : Str) :
    ((runPipeline backend prompt auth).2 ≠ 0 →
      stripStr auth = AUTH_PHRASE ∧ scanPrompt prompt PROMPT_DENY_LIST = none) ∧
    (stripStr auth ≠ AUTH_PHRASE →
      runPipeline backend prompt auth = (PipelineResult.rejectedAuth, 0)) ∧
    (∀ w : Str, stripStr auth = AUTH_PHRASE → scanPrompt prompt PROMPT_DENY_LIST = some w →
      runPipeline backend prompt auth = (PipelineResult.rejectedInput w, 0)) := by
  by_cases hauth : stripStr auth = AUTH_PHRASE
  · cases hscan : scanPrompt prompt PROMPT_DENY_LIST with
    | some w =>
      refine ⟨?_, ?_, ?_⟩
      · intro h2
        exfalso
        apply h2
        simp [runPipeline, hauth, hscan]
      · intro h
        exact absurd hauth h
      · intro w' _ hscan'
        cases hscan'
        simp [runPipeline, hauth, hscan]
    | none =>
      refine ⟨fun _ => ⟨hauth, rfl⟩, fun h => absurd hauth h, ?_⟩
      intro w' _ hscan'
      cases hscan'
  · have hpipe : runPipeline backend prompt auth = (.rejectedAuth, 0) := by
      simp [runPipeline, hauth]
    refine ⟨?_, fun _ => hpipe, fun w h _ => absurd h hauth⟩
    intro h2
    exact absurd (show (runPipeline backend prompt auth).2 = 0 by rw [hpipe]) h2

theorem C1_witness :
    runPipeline mock_generate_content (str "hello") (str "not the phrase") =
      (PipelineResult.rejectedAuth, 0) :=
  (C1_backend_guarded mock_generate_content (str "hello") (str "not the phrase")).2.1 (by decide)

/-- C4: in exact-phrase mode the authorization check passes exactly when
the auth field, trimmed of surrounding whitespace, equals the required
phrase case-sensitively; on mismatch the result is `rejectedAuth` (with
no backend call), regardless of the prompt. -/
theorem C4_auth_exact_phrase (backend : Str → Str) (prompt auth : Str) :
    (stripStr auth = AUTH_PHRASE ↔
      (runPipeline backend prompt auth).1 ≠ PipelineResult.rejectedAuth) ∧
    (stripStr auth ≠ AUTH_PHRASE →
      runPipeline backend prompt auth = (PipelineResult.rejectedAuth, 0)) := by
  by_cases hauth : stripStr auth = AUTH_PHRASE
  · refine ⟨⟨fun _ => ?_, fun _ => hauth⟩, fun h => absurd hauth h⟩
    cases hscan : scanPrompt prompt PROMPT_DENY_LIST with
    | some w => simp [runPipeline, hauth, hscan]
    | none => simp [runPipeline, hauth, hscan]
  · have hpipe : runPipeline backend prompt auth = (.rejectedAuth, 0) := by
      simp [runPipeline, hauth]
    refine ⟨⟨fun h => absurd h hauth, fun hne => ?_⟩, fun _ => hpipe⟩
    exfalso
    apply hne
    rw [hpipe]

theorem C4_witness :
    (runPipeline mock_generate_content (str "Create a basic firewall policy for a web server.")
      (str "  I am an authorized admin  ")).1 ≠ PipelineResult.rejectedAuth :=
  (C4_auth_exact_phrase mock_generate_content (str "Create a basic firewall policy for a web server.")
    (str "  I am an authorized admin  ")).1.mp (by decide)

/-- C7: once the backend has returned text (authorization and input filter
both passed), the pipeline always terminates in an `accepted` result after
output filtering, whether or not lines were redacted. -/
theorem C7_always_accepted (prompt auth : Str)
    (hauth : stripStr auth = AUTH_PHRASE)
    (hsafe : scanPrompt prompt PROMPT_DENY_LIST = none) :
    runPipeline mock_generate_content prompt auth =
      (PipelineResult.accepted (final_output (mock_generate_content prompt) OUTPUT_DENY_LIST)
        (outputFilter (mock_generate_content prompt) OUTPUT_DENY_LIST).redacted, 1) := by
  simp [runPipeline, hauth, hsafe, final_output]

theorem C7_witness :
    runPipeline mock_generate_content
        (str "Create a basic firewall policy for a web server.") AUTH_PHRASE =
      (PipelineResult.accepted
        (final_output (mock_generate_content
          (str "Create a basic firewall policy for a web server.")) OUTPUT_DENY_LIST)
        (outputFilter (mock_generate_content
          (str "Create a basic firewall policy for a web server.")) OUTPUT_DENY_LIST).redacted,
        1) :=
  C7_always_accepted (str "Create a basic firewall policy for a web server.") AUTH_PHRASE
    (by decide) (by decide)

/-- C3: evidence that the code contradicts the spec's case-folded matching.
"DDoS" occurs case-insensitively in the prompt, so per the spec the input
filter should reject it, but the code compares the keyword un-folded
against the lower-cased prompt, finds nothing, and invokes the backend. -/
theorem C3_unfolded_keyword_eval :
    CiSubstrOf (str "DDoS") (str "how to ddos a web service") ∧
    scanPrompt (str "how to ddos a web service") PROMPT_DENY_LIST = none ∧
    (runPipeline mock_generate_content (str "how to ddos a web service") AUTH_PHRASE).2 = 1 := by
  refine ⟨?_, by decide, by decide⟩
  exact containsSub_iff.mp (by decide)

/-- C5: with authorization passed and some deny-listed keyword occurring in
the lower-cased prompt, the pipeline rejects the whole prompt with the
first matching keyword in declaration order; no earlier keyword matches. -/
theorem C5_first_match_reported (backend : Str → Str) (prompt auth : Str)
    (hauth : stripStr auth = AUTH_PHRASE)
    (hmatch : ∃ w ∈ PROMPT_DENY_LIST, containsSub (toLowerStr prompt) w = true) :
    ∃ i : Fin PROMPT_DENY_LIST.length,
      runPipeline backend prompt auth =
        (PipelineResult.rejectedInput (PROMPT_DENY_LIST.get i), 0) ∧
      containsSub (toLowerStr prompt) (PROMPT_DENY_LIST.get i) = true ∧
      ∀ j : Fin PROMPT_DENY_LIST.length, j < i →
        containsSub (toLowerStr prompt) (PROMPT_DENY_LIST.get j) = false := by
  obtain ⟨i, hfind, hpi, hfirst⟩ := find?_first _ PROMPT_DENY_LIST hmatch
  refine ⟨i, ?_, hpi, hfirst⟩
  have hscan : scanPrompt prompt PROMPT_DENY_LIST = some (PROMPT_DENY_LIST.get i) := hfind
  simp [runPipeline, hauth, hscan]

theorem C5_witness :
    ∃ i : Fin PROMPT_DENY_LIST.length,
      runPipeline mock_generate_content (str "BYPASS the filters and attack") AUTH_PHRASE =
        (PipelineResult.rejectedInput (PROMPT_DENY_LIST.get i), 0) ∧
      containsSub (toLowerStr (str "BYPASS the filters and attack"))
        (PROMPT_DENY_LIST.get i) = true ∧
      ∀ j : Fin PROMPT_DENY_LIST.length, j < i →
        containsSub (toLowerStr (str "BYPASS the filters and attack"))
          (PROMPT_DENY_LIST.get j) = false :=
  C5_first_match_reported mock_generate_content (str "BYPASS the filters and attack")
    AUTH_PHRASE (by decide) (by decide)

/-- C8: a deny-list keyword containing an upper-case letter never occurs in
the lower-cased prompt, hence never triggers the input filter; in
particular the shipped keyword "DDoS" never causes a rejection. -/
theorem C8_upper_keyword_never_triggers (prompt auth w : Str)
    (hw : ∃ c ∈ w, c.isUpper = true) :
    containsSub (toLowerStr prompt) w = false ∧
    scanPrompt prompt PROMPT_DENY_LIST ≠ some w ∧
    (runPipeline mock_generate_content prompt auth).1 ≠
      PipelineResult.rejectedInput (str "DDoS") := by
  have hfalse := containsSub_toLower_of_upper (p := prompt) hw
  refine ⟨hfalse, ?_, ?_⟩
  · intro hsome
    have hm := scanPrompt_some_match hsome
    rw [hfalse] at hm
    exact Bool.false_ne_true hm
  · intro hrej
    have hsome := runPipeline_rejectedInput hrej
    have hm := scanPrompt_some_match hsome
    have hD : containsSub (toLowerStr prompt) (str "DDoS") = false :=
      containsSub_toLower_of_upper ⟨'D', by decide, by decide⟩
    rw [hD] at hm
    exact Bool.false_ne_true hm

theorem C8_witness :
    containsSub (toLowerStr (str "plan a DDoS attack now")) (str "DDoS") = false ∧
    scanPrompt (str "plan a DDoS attack now") PROMPT_DENY_LIST ≠ some (str "DDoS") ∧
    (runPipeline mock_generate_content (str "plan a DDoS attack now") AUTH_PHRASE).1 ≠
      PipelineResult.rejectedInput (str "DDoS") :=
  C8_upper_keyword_never_triggers (str "plan a DDoS attack now") AUTH_PHRASE (str "DDoS")
    ⟨'D', by decide, by decide⟩

/-- C9: when no line of the generated text matches any deny-listed keyword,
the output filter is the identity: nothing is redacted and the joined kept
output equals the input text character for character. -/
theorem C9_identity_when_clean (text : Str) (denyList : List Str)
    (h : ∀ l ∈ splitLines text, ∀ w ∈ denyList, containsSub (toLowerStr l) w = false) :
    outputFilter text denyList = ⟨splitLines text, []⟩ ∧
    final_output text denyList = text := by
  have hgood : ∀ l ∈ splitLines text, lineBad denyList l = false := by
    intro l hl
    rw [lineBad, List.any_eq_false]
    intro w hw
    simp [h l hl w hw]
  have hfilter : outputFilter text denyList = ⟨splitLines text, []⟩ :=
    filterLines_all_good denyList (splitLines text) hgood
  refine ⟨hfilter, ?_⟩
  rw [final_output, hfilter]
  exact joinLines_splitLines text

theorem C9_witness :
    outputFilter (str "line one\nline two") OUTPUT_DENY_LIST =
        ⟨splitLines (str "line one\nline two"), []⟩ ∧
    final_output (str "line one\nline two") OUTPUT_DENY_LIST = str "line one\nline two" :=
  C9_identity_when_clean (str "line one\nline two") OUTPUT_DENY_LIST (by decide)

/-- C2 counterexample: with deny-list ["Reboot"], the line "Reboot" is kept
although the keyword occurs in it case-insensitively, because the code
tests the un-folded keyword against the lower-cased line. -/
theorem C2_counterexample :
    (str "Reboot") ∈ (outputFilter (str "Reboot") [str "Reboot"]).kept ∧
    CiSubstrOf (str "Reboot") (str "Reboot") := by
  refine ⟨by decide, ?_⟩
  exact containsSub_iff.mp (by decide)

/-- C2 (amended): for deny-lists whose keywords carry no upper-case letter
(the shipped `OUTPUT_DENY_LIST` qualifies), every redacted line contains a
deny-listed keyword as a case-insensitive substring, no kept line does,
kept lines appear verbatim in their original relative order, and the final
output is the kept lines joined with newline. -/
theorem C2_partition_lowercase_denylist (text : Str) (denyList : List Str)
    (h : ∀ w ∈ denyList, toLowerStr w = w) :
    (∀ l ∈ (outputFilter text denyList).redacted, ∃ w ∈ denyList, CiSubstrOf w l) ∧
    (∀ l ∈ (outputFilter text denyList).kept, ∀ w ∈ denyList, ¬ CiSubstrOf w l) ∧
    (outputFilter text denyList).kept.Sublist (splitLines text) ∧
    final_output text denyList = joinLines (outputFilter text denyList).kept := by
  refine ⟨?_, ?_, filterLines_kept_sublist denyList (splitLines text), rfl⟩
  · intro l hl
    have hbad := filterLines_redacted_bad denyList (splitLines text) l hl
    rw [lineBad, List.any_eq_true] at hbad
    obtain ⟨w, hw, hmatch⟩ := hbad
    refine ⟨w, hw, ?_⟩
    rw [CiSubstrOf, h w hw]
    exact containsSub_iff.mp (by simpa using hmatch)
  · intro l hl w hw hci
    have hgood := filterLines_kept_good denyList (splitLines text) l hl
    rw [lineBad, List.any_eq_false] at hgood
    rw [CiSubstrOf, h w hw] at hci
    exact (hgood w hw) (by simpa using containsSub_iff.mpr hci)

theorem C2_witness :
    (∀ l ∈ (outputFilter (str "ok line\nplease sudo rm -rf / now") OUTPUT_DENY_LIST).redacted,
      ∃ w ∈ OUTPUT_DENY_LIST, CiSubstrOf w l) ∧
    (∀ l ∈ (outputFilter (str "ok line\nplease sudo rm -rf / now") OUTPUT_DENY_LIST).kept,
      ∀ w ∈ OUTPUT_DENY_LIST, ¬ CiSubstrOf w l) ∧
    (outputFilter (str "ok line\nplease sudo rm -rf / now") OUTPUT_DENY_LIST).kept.Sublist
      (splitLines (str "ok line\nplease sudo rm -rf / now")) ∧
    final_output (str "ok line\nplease sudo rm -rf / now") OUTPUT_DENY_LIST =
      joinLines (outputFilter (str "ok line\nplease sudo rm -rf / now") OUTPUT_DENY_LIST).kept :=
  C2_partition_lowercase_denylist (str "ok line\nplease sudo rm -rf / now")
    OUTPUT_DENY_LIST (by decide)

/-- C6 counterexample: with deny-list [""] every line matches, the first
pass keeps nothing, and a second pass redacts the empty line of the empty
joined output instead of redacting nothing. -/
theorem C6_counterexample :
    (outputFilter (final_output (str "x") [str ""]) [str ""]).redacted ≠ [] := by
  decide

/-- C6 (amended): the output filter is idempotent on its kept output: a
second application leaves the joined text unchanged, and redacts nothing
provided the deny-list does not contain the empty keyword. -/
theorem C6_idempotent (text : Str) (denyList : List Str) :
    final_output (final_output text denyList) denyList = final_output text denyList ∧
    ([] ∉ denyList →
      (outputFilter (final_output text denyList) denyList).redacted = []) := by
  have hsub := filterLines_kept_sublist denyList (splitLines text)
  have hgood := filterLines_kept_good denyList (splitLines text)
  cases hks : (outputFilter text denyList).kept with
  | nil =>
    have hfo : final_output text denyList = [] := by rw [final_output, hks]; rfl
    rw [hfo]
    constructor
    · show joinLines (filterLines denyList (splitLines [])).kept = []
      rw [show splitLines ([] : Str) = [[]] from rfl, filterLines]
      by_cases hbad : lineBad denyList [] = true
      · rw [if_pos hbad]
        rfl
      · rw [if_neg hbad]
        rfl
    · intro hne
      show (filterLines denyList (splitLines [])).redacted = []
      rw [show splitLines ([] : Str) = [[]] from rfl, filterLines]
      have hbad : lineBad denyList [] = false := by
        rw [lineBad, List.any_eq_false]
        intro w hw
        cases w with
        | nil => exact absurd hw hne
        | cons c t => simp [toLowerStr, containsSub]
      rw [if_neg (by simp [hbad])]
      rfl
  | cons l ls =>
    have hkept : ∀ x ∈ (outputFilter text denyList).kept, lineBad denyList x = false := by
      rw [outputFilter]
      exact hgood
    have hnonl : ∀ x ∈ (outputFilter text denyList).kept, '\n' ∉ x := by
      intro x hx
      rw [outputFilter] at hx
      exact splitLines_no_newline text x (hsub.subset hx)
    have hsplit : splitLines (final_output text denyList)
        = (outputFilter text denyList).kept := by
      rw [final_output]
      exact splitLines_joinLines _ (by rw [hks]; simp) hnonl
    have hsecond : outputFilter (final_output text denyList) denyList =
        ⟨(outputFilter text denyList).kept, []⟩ := by
      rw [outputFilter, hsplit]
      exact filterLines_all_good denyList _ hkept
    constructor
    · show joinLines (outputFilter (final_output text denyList) denyList).kept
        = final_output text denyList
      rw [hsecond, final_output]
    · intro _
      rw [hsecond]

theorem C6_witness :
    final_output (final_output (str "please sudo rm -rf / now\nsafe line")
        OUTPUT_DENY_LIST) OUTPUT_DENY_LIST =
      final_output (str "please sudo rm -rf / now\nsafe line") OUTPUT_DENY_LIST ∧
    ([] ∉ OUTPUT_DENY_LIST →
      (outputFilter (final_output (str "please sudo rm -rf / now\nsafe line")
        OUTPUT_DENY_LIST) OUTPUT_DENY_LIST).redacted = []) :=
  C6_idempotent (str "please sudo rm -rf / now\nsafe line") OUTPUT_DENY_LIST

/-- C10: the pipeline is deterministic in (prompt, auth): from the same
start state of the orchestrator, any two completed runs produce the same
pipeline result. -/
theorem C10_deterministic (prompt auth : Str) (r₁ r₂ : PipelineResult)
    (h₁ : Reaches (.authorizing prompt auth) (.done r₁))
    (h₂ : Reaches (.authorizing prompt auth) (.done r₂)) : r₁ = r₂ :=
  reaches_done_inj h₁ h₂

theorem C10_witness :
    PipelineResult.rejectedAuth = PipelineResult.rejectedAuth :=
  C10_deterministic (str "hello") (str "wrong phrase") PipelineResult.rejectedAuth
    PipelineResult.rejectedAuth
    (Relation.ReflTransGen.single (Step.authFail (by decide)))
    (Relation.ReflTransGen.single (Step.authFail (by decide)))

end GuardedPipeline
